import Mathlib

/-!
Verification of the zjcai-solver quiz automation scripts.

This file shallowly embeds the pure computational core of the repository
(`main.py` and its three near-duplicate variants `quiz_solver.py`,
`quiz_solver_code.py`, `quiz_solver_mc_fill.py`): string utilities,
option-label parsing, question-type classification, the inline-image
rendering pipeline, the editor-injection fallback chain, the
advance-to-next-question step and the orchestrator loop.  Effectful
collaborators (the DOM, the LLM, the OCR model) are modelled as
environments that record the outcome of each external call; Python
exceptions are modelled with `Except`.
-/

set_option maxHeartbeats 1000000

namespace Zjcai

/-- Python's whitespace class (`\s` in `re`, and `str.strip`) restricted to
the ASCII whitespace characters: space, tab, newline, carriage return,
vertical tab, form feed.  The strings the solver handles are ASCII/CJK text,
so this is the class the source's `re.sub(r"\s+", ...)` and `.strip()` see. -/
def pyWS (c : Char) : Bool :=
  c = ' ' || c = '\t' || c = '\n' || c = '\r' || c = '\x0b' || c = '\x0c'

/-- `re.sub(r"\s+", " ", s)`: every maximal run of whitespace characters is
replaced by a single space.  The flag records whether the previously read
character was whitespace (i.e. whether we are inside a run). -/
def collapseWS : Bool → List Char → List Char
  | _, [] => []
  | prevWS, c :: cs =>
    if pyWS c then
      if prevWS then collapseWS true cs else ' ' :: collapseWS true cs
    else c :: collapseWS false cs

/-- Python `str.strip()` on a character list: remove leading and trailing
whitespace. -/
def pyStrip (s : List Char) : List Char :=
  ((s.dropWhile pyWS).reverse.dropWhile pyWS).reverse

/-- `clean_whitespace` from `main.py` (identical in the other variants):
`re.sub(r"\s+", " ", s or "").strip()`. -/
def clean_whitespace (s : String) : String :=
  String.mk (pyStrip (collapseWS false s.data))

/-- No two adjacent characters are both whitespace. -/
def noWSRun (l : List Char) : Prop :=
  List.Chain' (fun a b => ¬(pyWS a = true ∧ pyWS b = true)) l

theorem collapseWS_true_head :
    ∀ s : List Char, ∀ c ∈ (collapseWS true s).head?, pyWS c = false := by
  intro s
  induction s with
  | nil => intro c hc; simp [collapseWS] at hc
  | cons d ds ih =>
    intro c hc
    by_cases hd : pyWS d
    · simp only [collapseWS, hd, if_true] at hc
      exact ih c hc
    · simp only [collapseWS, hd] at hc
      simp only [Bool.false_eq_true, if_false, List.head?_cons, Option.mem_def,
        Option.some.injEq] at hc
      subst hc
      simpa using hd

theorem collapseWS_noWSRun : ∀ (b : Bool) (s : List Char), noWSRun (collapseWS b s) := by
  intro b s
  induction s generalizing b with
  | nil => simp [collapseWS, noWSRun]
  | cons d ds ih =>
    by_cases hd : pyWS d
    · cases b with
      | true => simpa [collapseWS, hd] using ih true
      | false =>
        simp only [collapseWS, hd, if_true, Bool.false_eq_true, if_false]
        rw [noWSRun, List.chain'_cons']
        refine ⟨?_, ih true⟩
        intro c hc hcontra
        have := collapseWS_true_head ds c hc
        rw [this] at hcontra
        exact absurd hcontra.2 (by simp)
    · simp only [collapseWS, hd, Bool.false_eq_true, if_false]
      rw [noWSRun, List.chain'_cons']
      refine ⟨?_, ih false⟩
      intro c hc hcontra
      exact hd (by simp [hcontra.1])

theorem collapseWS_ws_eq_space :
    ∀ (b : Bool) (s : List Char), ∀ c ∈ collapseWS b s, pyWS c = true → c = ' ' := by
  intro b s
  induction s generalizing b with
  | nil => simp [collapseWS]
  | cons d ds ih =>
    intro c hc hws
    by_cases hd : pyWS d
    · cases b with
      | true =>
        simp only [collapseWS, hd, if_true] at hc
        exact ih true c hc hws
      | false =>
        simp only [collapseWS, hd, if_true, Bool.false_eq_true, if_false,
          List.mem_cons] at hc
        rcases hc with h | h
        · exact h
        · exact ih true c h hws
    · simp only [collapseWS, hd, Bool.false_eq_true, if_false, List.mem_cons] at hc
      rcases hc with h | h
      · subst h; exact absurd hws (by simpa using hd)
      · exact ih false c h hws

theorem dropWhile_head_not :
    ∀ (p : Char → Bool) (l : List Char), ∀ c ∈ (l.dropWhile p).head?, p c = false := by
  intro p l
  induction l with
  | nil => simp
  | cons d ds ih =>
    intro c hc
    by_cases hd : p d
    · rw [List.dropWhile_cons_of_pos hd] at hc
      exact ih c hc
    · rw [List.dropWhile_cons_of_neg hd] at hc
      simp only [List.head?_cons, Option.mem_def, Option.some.injEq] at hc
      subst hc
      simpa using hd

/-- The stripped list sits at the front of `l.dropWhile pyWS`: the second
(`trailing`) pass only removes characters from the end. -/
theorem pyStrip_append (l : List Char) :
    ∃ t, l.dropWhile pyWS = pyStrip l ++ t ∧ ∀ c ∈ t, pyWS c = true := by
  rcases List.dropWhile_suffix (l := (l.dropWhile pyWS).reverse) pyWS with ⟨pre, hpre⟩
  refine ⟨pre.reverse, ?_, ?_⟩
  · have := congrArg List.reverse hpre
    simpa [List.reverse_append, pyStrip] using this.symm
  · intro c hc
    have hcpre : c ∈ pre := by simpa using hc
    have := List.takeWhile_append_dropWhile (p := pyWS)
      (l := (l.dropWhile pyWS).reverse)
    -- `pre` is exactly the `takeWhile` part of the reversed list
    have hpre' : pre = ((l.dropWhile pyWS).reverse).takeWhile pyWS := by
      have h2 : pre ++ ((l.dropWhile pyWS).reverse).dropWhile pyWS =
          ((l.dropWhile pyWS).reverse).takeWhile pyWS ++
            ((l.dropWhile pyWS).reverse).dropWhile pyWS := by
        rw [hpre, this]
      exact List.append_cancel_right h2
    rw [hpre'] at hcpre
    exact List.mem_takeWhile_imp hcpre

theorem pyStrip_head : ∀ l : List Char, ∀ c ∈ (pyStrip l).head?, pyWS c = false := by
  intro l c hc
  rcases pyStrip_append l with ⟨t, ht, -⟩
  rcases hnil : pyStrip l with _ | ⟨c', u⟩
  · rw [hnil] at hc; simp at hc
  · rw [hnil] at hc
    simp only [List.head?_cons, Option.mem_def, Option.some.injEq] at hc
    have hhd : (l.dropWhile pyWS).head? = some c' := by
      rw [ht, hnil]; rfl
    rw [← hc]
    exact dropWhile_head_not pyWS l c' hhd

theorem pyStrip_getLast : ∀ l : List Char, ∀ c ∈ (pyStrip l).getLast?, pyWS c = false := by
  intro l c hc
  have hrev : (pyStrip l).reverse = ((l.dropWhile pyWS).reverse).dropWhile pyWS := by
    simp [pyStrip]
  have hhd : c ∈ (((l.dropWhile pyWS).reverse).dropWhile pyWS).head? := by
    rw [← hrev, List.head?_reverse]
    exact hc
  exact dropWhile_head_not pyWS (l.dropWhile pyWS).reverse c hhd

theorem pyStrip_subset : ∀ l : List Char, ∀ c ∈ pyStrip l, c ∈ l := by
  intro l c hc
  rcases pyStrip_append l with ⟨t, ht, -⟩
  have : c ∈ l.dropWhile pyWS := by
    rw [ht]; exact List.mem_append_left _ hc
  exact (List.dropWhile_sublist pyWS).mem this

theorem pyStrip_noWSRun (l : List Char) (h : noWSRun l) : noWSRun (pyStrip l) := by
  have h1 : noWSRun (l.dropWhile pyWS) := by
    rcases List.dropWhile_suffix (l := l) pyWS with ⟨pre, hpre⟩
    rw [noWSRun] at h ⊢
    rw [← hpre] at h
    exact h.right_of_append
  have h2 : noWSRun ((l.dropWhile pyWS).reverse) := by
    rw [noWSRun, List.chain'_reverse]
    exact h1.imp (fun a b hab ⟨x, y⟩ => hab ⟨y, x⟩)
  have h3 : noWSRun (((l.dropWhile pyWS).reverse).dropWhile pyWS) := by
    rcases List.dropWhile_suffix (l := (l.dropWhile pyWS).reverse) pyWS with ⟨pre, hpre⟩
    rw [noWSRun] at h2 ⊢
    rw [← hpre] at h2
    exact h2.right_of_append
  rw [noWSRun, pyStrip, List.chain'_reverse]
  exact h3.imp (fun a b hab ⟨x, y⟩ => hab ⟨y, x⟩)

/-- On a list that is already in normal form (no whitespace runs, every
whitespace character a plain space), the collapsing pass is the identity. -/
theorem collapseWS_id : ∀ l : List Char, noWSRun l →
    (∀ c ∈ l, pyWS c = true → c = ' ') → collapseWS false l = l := by
  intro l
  induction l with
  | nil => intro _ _; rfl
  | cons d ds ih =>
    intro hchain hsp
    have hchain' : noWSRun ds := by
      rw [noWSRun] at hchain ⊢
      exact hchain.tail
    by_cases hd : pyWS d
    · have hdsp : d = ' ' := hsp d (List.mem_cons_self d ds) hd
      simp only [collapseWS, hd, if_true, Bool.false_eq_true, if_false]
      have htail : collapseWS true ds = ds := by
        rcases ds with _ | ⟨e, es⟩
        · rfl
        · have hne : pyWS e = false := by
            rw [noWSRun, List.chain'_cons] at hchain
            by_contra hcon
            exact hchain.1 ⟨hd, by simpa using hcon⟩
          have hih : collapseWS false (e :: es) = e :: es :=
            ih hchain' (fun c hc => hsp c (List.mem_cons_of_mem d hc))
          simp only [collapseWS, hne, Bool.false_eq_true, if_false] at hih ⊢
          exact hih
      rw [htail, hdsp]
    · simp only [collapseWS, hd, Bool.false_eq_true, if_false]
      rw [ih hchain' (fun c hc => hsp c (List.mem_cons_of_mem d hc))]

theorem pyStrip_id (l : List Char)
    (hh : ∀ c ∈ l.head?, pyWS c = false)
    (hl : ∀ c ∈ l.getLast?, pyWS c = false) : pyStrip l = l := by
  have h1 : l.dropWhile pyWS = l := by
    rcases l with _ | ⟨c, t⟩
    · rfl
    · have := hh c (by rfl)
      simp [List.dropWhile_cons, this]
  rw [pyStrip, h1]
  have h2 : l.reverse.dropWhile pyWS = l.reverse := by
    rcases hr : l.reverse with _ | ⟨c, t⟩
    · rfl
    · have hc : c ∈ l.getLast? := by
        rw [← List.head?_reverse, hr]; rfl
      have := hl c hc
      simp [List.dropWhile_cons, this]
  rw [h2, List.reverse_reverse]

/-- **C9.** `clean_whitespace` is idempotent, and every output of
`clean_whitespace` has no leading whitespace, no trailing whitespace, and no
run of two or more consecutive whitespace characters. -/
theorem clean_whitespace_idempotent (s : String) :
    clean_whitespace (clean_whitespace s) = clean_whitespace s ∧
    (∀ c ∈ (clean_whitespace s).data.head?, pyWS c = false) ∧
    (∀ c ∈ (clean_whitespace s).data.getLast?, pyWS c = false) ∧
    noWSRun (clean_whitespace s).data := by
  set l : List Char := pyStrip (collapseWS false s.data) with hl
  have hdata : (clean_whitespace s).data = l := by
    simp [clean_whitespace, hl]
  have hchain : noWSRun l := pyStrip_noWSRun _ (collapseWS_noWSRun false s.data)
  have hsp : ∀ c ∈ l, pyWS c = true → c = ' ' := fun c hc =>
    collapseWS_ws_eq_space false s.data c (pyStrip_subset _ c hc)
  have hhead : ∀ c ∈ l.head?, pyWS c = false := pyStrip_head _
  have hlast : ∀ c ∈ l.getLast?, pyWS c = false := pyStrip_getLast _
  refine ⟨?_, by rw [hdata]; exact hhead, by rw [hdata]; exact hlast,
    by rw [hdata]; exact hchain⟩
  show clean_whitespace (clean_whitespace s) = clean_whitespace s
  have : clean_whitespace (clean_whitespace s) =
      String.mk (pyStrip (collapseWS false l)) := by
    rw [clean_whitespace, hdata]
  rw [this, collapseWS_id l hchain hsp, pyStrip_id l hhead hlast]
  rw [clean_whitespace, ← hl]

/-! ## Option-label parsing: `OPTION_LABEL_RE` and `parse_option_label`

The source compiles `OPTION_LABEL_RE = re.compile(r"^([A-Z])\s*[\.、．]?\s*(.*)$")`
and `parse_option_label` strips the raw label, applies `OPTION_LABEL_RE.match`,
and returns `(group(1), group(2).strip())` on a match, `("", stripped)` else. -/

/-- First `some` produced by `f` over the list, in order (a regex engine's
preference order over alternatives). -/
def firstSome {α β : Type} (f : α → Option β) : List α → Option β
  | [] => none
  | a :: l =>
    match f a with
    | some b => some b
    | none => firstSome f l

theorem firstSome_eq_none_of_all {α β : Type} (f : α → Option β) (l : List α)
    (h : ∀ a ∈ l, f a = none) : firstSome f l = none := by
  induction l with
  | nil => rfl
  | cons a t ih =>
    have ha := h a (List.mem_cons_self a t)
    simp only [firstSome, ha]
    exact ih (fun x hx => h x (List.mem_cons_of_mem a hx))

/-- The class `[A-Z]`. -/
def isAZ (c : Char) : Bool := 'A' ≤ c && c ≤ 'Z'

/-- The separator class `[\.、．]` of `OPTION_LABEL_RE`. -/
def isSep (c : Char) : Bool := c = '.' || c = '、' || c = '．'

/-- `(.*)$` at the end of a Python pattern (no `MULTILINE`): `.` does not
match a newline and `$` matches at the end of the string or just before a
single final newline.  So it matches the remaining input iff the only
newline, if any, is the final character; the group captures everything before
the first newline. -/
def dotStarCap (body : List Char) : Option (List Char) :=
  if body.dropWhile (· != '\n') = [] ∨ body.dropWhile (· != '\n') = ['\n'] then
    some (body.takeWhile (· != '\n'))
  else none

/-- Length of the maximal whitespace prefix of `s`. -/
def wsLen (s : List Char) : Nat := (s.takeWhile pyWS).length

/-- The suffixes of `s` reachable by matching `\s*`, in the regex engine's
preference order: greedy, longest match first. -/
def wsSuffixes (s : List Char) : List (List Char) :=
  (List.range (wsLen s + 1)).map (fun i => s.drop (wsLen s - i))

/-- The suffixes of `s` reachable by matching `[\.、．]?`: the engine prefers
consuming one separator when the next character is one. -/
def sepSuffixes (s : List Char) : List (List Char) :=
  match s with
  | [] => [[]]
  | c :: rest => if isSep c then [rest, c :: rest] else [c :: rest]

/-- Backtracking match of `\s*[\.、．]?\s*(.*)$` against `s`: the nested
alternative lists follow the engine's preference order, and the result is the
final group's capture for the first alternative that matches to the end. -/
def tailMatch (s : List Char) : Option (List Char) :=
  firstSome
    (fun s1 =>
      firstSome (fun s2 => firstSome dotStarCap (wsSuffixes s2)) (sepSuffixes s1))
    (wsSuffixes s)

/-- `OPTION_LABEL_RE.match(t)`: `^([A-Z])\s*[\.、．]?\s*(.*)$`, returning both
captured groups. -/
def optionLabelMatch (t : List Char) : Option (Char × List Char) :=
  match t with
  | [] => none
  | c :: rest => if isAZ c then (tailMatch rest).map (fun cap => (c, cap)) else none

/-- `parse_option_label` from `main.py` (identical in the variants that have
it): strip the raw string, match `OPTION_LABEL_RE`; on a match return
`(group(1), group(2).strip())`, otherwise `("", stripped raw)`. -/
def parse_option_label (raw : String) : String × String :=
  let t := pyStrip raw.data
  match optionLabelMatch t with
  | some (c, cap) => (String.mk [c], String.mk (pyStrip cap))
  | none => ("", String.mk t)

/-- `[\.、．]?` consumed greedily: drop one leading separator if present. -/
def stripSep : List Char → List Char
  | [] => []
  | c :: r => if isSep c then r else c :: r

/-- Greedy, non-backtracking description of `tailMatch`: skip all leading
whitespace, at most one separator, skip whitespace again, and require that
the remainder contains no newline before its final character. -/
def greedyTail (s : List Char) : Option (List Char) :=
  dotStarCap ((stripSep (s.dropWhile pyWS)).dropWhile pyWS)

theorem takeWhile_length_take (p : Char → Bool) :
    ∀ l : List Char, l.take (l.takeWhile p).length = l.takeWhile p := by
  intro l
  induction l with
  | nil => rfl
  | cons c t ih =>
    by_cases hc : p c
    · rw [List.takeWhile_cons_of_pos hc]
      simpa [List.take_succ_cons] using ih
    · rw [List.takeWhile_cons_of_neg hc]
      rfl

theorem dropWhile_eq_drop_len (p : Char → Bool) :
    ∀ l : List Char, l.dropWhile p = l.drop (l.takeWhile p).length := by
  intro l
  induction l with
  | nil => rfl
  | cons c t ih =>
    by_cases hc : p c
    · rw [List.dropWhile_cons_of_pos hc, List.takeWhile_cons_of_pos hc]
      simpa using ih
    · rw [List.dropWhile_cons_of_neg hc, List.takeWhile_cons_of_neg hc]
      rfl

theorem dotStarCap_none_cons (x : Char) (body : List Char)
    (h : dotStarCap body = none) : dotStarCap (x :: body) = none := by
  by_cases hx : (x != '\n') = true
  · have hcond : ¬(body.dropWhile (· != '\n') = [] ∨ body.dropWhile (· != '\n') = ['\n']) := by
      intro hc
      rw [dotStarCap, if_pos hc] at h
      exact absurd h (by simp)
    rw [dotStarCap,
      List.dropWhile_cons_of_pos (p := fun c => c != '\n') (l := body) hx,
      if_neg hcond]
  · have hx' : x = '\n' := by simpa using hx
    cases body with
    | nil =>
      rw [dotStarCap] at h
      simp at h
    | cons b bs =>
      have hdw : (x :: b :: bs).dropWhile (· != '\n') = x :: b :: bs :=
        List.dropWhile_cons_of_neg (by simp [hx'])
      rw [dotStarCap, hdw, if_neg (by simp)]

theorem dotStarCap_none_append (ex body : List Char)
    (h : dotStarCap body = none) : dotStarCap (ex ++ body) = none := by
  induction ex with
  | nil => exact h
  | cons x t ih => exact dotStarCap_none_cons x (t ++ body) ih

theorem isSep_not_ws (c : Char) (h : isSep c = true) : pyWS c = false := by
  have : c = '.' ∨ c = '、' ∨ c = '．' := by
    simpa [isSep, or_assoc] using h
  rcases this with rfl | rfl | rfl <;> decide

theorem wsSuffixes_cons (s : List Char) :
    wsSuffixes s =
      s.dropWhile pyWS ::
        (List.range (wsLen s)).map (fun i => s.drop (wsLen s - (i + 1))) := by
  rw [wsSuffixes, List.range_succ_eq_map, List.map_cons, List.map_map]
  congr 1
  rw [Nat.sub_zero, dropWhile_eq_drop_len pyWS s, wsLen]

theorem wsSuffixes_elem (s : List Char) :
    ∀ x ∈ wsSuffixes s, ∃ ex, (∀ c ∈ ex, pyWS c = true) ∧ x = ex ++ s.dropWhile pyWS := by
  intro x hx
  rw [wsSuffixes, List.mem_map] at hx
  rcases hx with ⟨i, hi, rfl⟩
  rw [List.mem_range, Nat.lt_succ_iff] at hi
  refine ⟨(s.takeWhile pyWS).drop (wsLen s - i), ?_, ?_⟩
  · intro c hc
    exact List.mem_takeWhile_imp (List.drop_subset _ _ hc)
  · have h1 : s.drop (wsLen s - i) =
        (s.drop (wsLen s - i)).take i ++ (s.drop (wsLen s - i)).drop i :=
      (List.take_append_drop _ _).symm
    have h2 : (s.drop (wsLen s - i)).drop i = s.dropWhile pyWS := by
      rw [List.drop_drop, Nat.sub_add_cancel hi, dropWhile_eq_drop_len pyWS s, wsLen]
    have h3 : (s.drop (wsLen s - i)).take i = (s.takeWhile pyWS).drop (wsLen s - i) := by
      rw [List.take_drop, Nat.sub_add_cancel hi, wsLen, takeWhile_length_take]
    rw [h1, h2, h3]

theorem firstSome_wsSuffixes_dotStarCap (s2 : List Char) :
    firstSome dotStarCap (wsSuffixes s2) = dotStarCap (s2.dropWhile pyWS) := by
  rw [wsSuffixes_cons]
  rcases h : dotStarCap (s2.dropWhile pyWS) with _ | v
  · simp only [firstSome, h]
    apply firstSome_eq_none_of_all
    intro x hx
    have hx' : x ∈ wsSuffixes s2 := by
      rw [wsSuffixes_cons]
      exact List.mem_cons_of_mem _ hx
    rcases wsSuffixes_elem s2 x hx' with ⟨ex, -, rfl⟩
    exact dotStarCap_none_append ex _ h
  · simp [firstSome, h]

/-- Greedy value of the `[\.、．]?\s*(.*)$` part. -/
def sepGreedy (s1 : List Char) : Option (List Char) :=
  dotStarCap ((stripSep s1).dropWhile pyWS)

theorem firstSome_sepSuffixes (s1 : List Char) :
    firstSome (fun s2 => firstSome dotStarCap (wsSuffixes s2)) (sepSuffixes s1) =
      sepGreedy s1 := by
  rcases s1 with _ | ⟨c, r⟩
  · have h0 : dotStarCap [] = some [] := rfl
    simp [sepSuffixes, firstSome, firstSome_wsSuffixes_dotStarCap, sepGreedy,
      stripSep, h0]
  · by_cases hc : isSep c = true
    · simp only [sepSuffixes, hc, if_true]
      rcases h : dotStarCap (r.dropWhile pyWS) with _ | v
      · have hcw : pyWS c = false := isSep_not_ws c hc
        have h2 : (c :: r).dropWhile pyWS = c :: r :=
          List.dropWhile_cons_of_neg (by simp [hcw])
        have h3 : dotStarCap (c :: r) = none := by
          have hsplit : c :: r = (c :: r.takeWhile pyWS) ++ r.dropWhile pyWS := by
            simp [List.takeWhile_append_dropWhile]
          rw [hsplit]
          exact dotStarCap_none_append _ _ h
        simp [firstSome, firstSome_wsSuffixes_dotStarCap, h, h2, h3, sepGreedy,
          stripSep, hc]
      · simp [firstSome, firstSome_wsSuffixes_dotStarCap, h, sepGreedy, stripSep, hc]
    · simp only [sepSuffixes, hc, Bool.false_eq_true, if_false]
      rcases h : dotStarCap ((c :: r).dropWhile pyWS) with _ | v <;>
        simp [firstSome, firstSome_wsSuffixes_dotStarCap, sepGreedy, stripSep, hc, h]

theorem sepGreedy_none_wsext (ex base : List Char)
    (hws : ∀ c ∈ ex, pyWS c = true) (h : sepGreedy base = none) :
    sepGreedy (ex ++ base) = none := by
  rcases hex : ex with _ | ⟨e, ex'⟩
  · simpa using h
  · have hews : pyWS e = true := hws e (by rw [hex]; exact List.mem_cons_self _ _)
    have hesep : isSep e = false := by
      have : e = ' ' ∨ e = '\t' ∨ e = '\n' ∨ e = '\r' ∨ e = '\x0b' ∨ e = '\x0c' := by
        simpa [pyWS, or_assoc] using hews
      rcases this with rfl | rfl | rfl | rfl | rfl | rfl <;> decide
    have hstrip : stripSep (e :: (ex' ++ base)) = e :: (ex' ++ base) := by
      simp [stripSep, hesep]
    have hall : ∀ c ∈ e :: ex', pyWS c = true := by
      intro c hcmem
      apply hws
      rw [hex]
      exact hcmem
    have hdw : (e :: (ex' ++ base)).dropWhile pyWS = base.dropWhile pyWS := by
      have : e :: (ex' ++ base) = (e :: ex') ++ base := by simp
      rw [this]
      exact List.dropWhile_append_of_pos hall
    rw [sepGreedy, List.cons_append, hstrip, hdw]
    -- now compare with the hypothesis about `base`
    rcases base with _ | ⟨b, t⟩
    · rw [sepGreedy] at h
      simp [stripSep, dotStarCap] at h
    · by_cases hb : isSep b = true
      · have hbw : pyWS b = false := isSep_not_ws b hb
        have hbase : (b :: t).dropWhile pyWS = b :: t :=
          List.dropWhile_cons_of_neg (by simp [hbw])
        rw [hbase]
        rw [sepGreedy] at h
        simp only [stripSep, hb, if_true] at h
        have hsplit : b :: t = (b :: t.takeWhile pyWS) ++ t.dropWhile pyWS := by
          simp [List.takeWhile_append_dropWhile]
        rw [hsplit]
        exact dotStarCap_none_append _ _ h
      · rw [sepGreedy] at h
        simp only [stripSep, hb, Bool.false_eq_true, if_false] at h
        exact h

/-- The backtracking match of `\s*[\.、．]?\s*(.*)$` agrees with its greedy
description: backtracking any of the optional pieces never turns a failure
into a success, because `(.*)$` fails exactly when the remaining suffix has a
newline before its final character — a condition stable under putting the
backtracked characters in front. -/
theorem tailMatch_eq_greedyTail (s : List Char) : tailMatch s = greedyTail s := by
  have hpt : (fun s1 =>
      firstSome (fun s2 => firstSome dotStarCap (wsSuffixes s2)) (sepSuffixes s1)) =
      sepGreedy := funext fun s1 => firstSome_sepSuffixes s1
  rw [tailMatch, hpt, wsSuffixes_cons]
  rcases h : sepGreedy (s.dropWhile pyWS) with _ | v
  · simp only [firstSome, h]
    rw [greedyTail, ← sepGreedy, h]
    apply firstSome_eq_none_of_all
    intro x hx
    have hx' : x ∈ wsSuffixes s := by
      rw [wsSuffixes_cons]
      exact List.mem_cons_of_mem _ hx
    rcases wsSuffixes_elem s x hx' with ⟨ex, hexws, rfl⟩
    exact sepGreedy_none_wsext ex _ hexws h
  · simp only [firstSome, h]
    rw [greedyTail, ← sepGreedy, h]

/-- The greedy description of `parse_option_label`, used to state the amended
claim C4: strip the raw label; if it starts with a capital letter, skip
whitespace, at most one separator (`.`, `、` or `．`), whitespace again, and —
provided the remainder has no newline before its final character — return the
letter together with the stripped remainder; otherwise return `("", stripped
raw)`. -/
def parseOptionLabelGreedy (raw : String) : String × String :=
  match pyStrip raw.data with
  | [] => ("", String.mk (pyStrip raw.data))
  | c :: rest =>
    if isAZ c then
      match greedyTail rest with
      | some cap => (String.mk [c], String.mk (pyStrip cap))
      | none => ("", String.mk (pyStrip raw.data))
    else ("", String.mk (pyStrip raw.data))

/-- Stated from claim C4's words, not from the source: apply the regex
`^[A-Z][.、．]?\s*(.*)$` (no whitespace allowed between the letter and the
separator) to the raw, unstripped label; on a match, return the leading
capital letter and the trimmed capture; otherwise return the raw string
trimmed of surrounding whitespace with an empty key.  The optional separator
and `\s*` are matched greedily; as with `tailMatch`, backtracking them cannot
turn a failure into a success. -/
def claimParse (raw : String) : String × String :=
  match raw.data with
  | [] => ("", String.mk (pyStrip raw.data))
  | c :: rest =>
    if isAZ c then
      match dotStarCap ((stripSep rest).dropWhile pyWS) with
      | some cap => (String.mk [c], String.mk (pyStrip cap))
      | none => ("", String.mk (pyStrip raw.data))
    else ("", String.mk (pyStrip raw.data))

/-- **C4 counterexample.** On `"A . x"` the claim's regex
`^[A-Z][.、．]?\s*(.*)$` matches with capture `". x"` — its optional separator
cannot be consumed across the space — so the claim predicts `("A", ". x")`;
the code's regex `^([A-Z])\s*[\.、．]?\s*(.*)$` allows whitespace before the
separator and `parse_option_label` returns `("A", "x")`. -/
theorem parse_option_label_claim_cex :
    claimParse "A . x" = ("A", ". x") ∧
    parse_option_label "A . x" = ("A", "x") ∧
    ("A . x" : String) = String.mk ['A', ' ', '.', ' ', 'x'] := by
  refine ⟨by decide, by decide, by decide⟩

/-- **C4 (amended).** For every raw label string: after trimming, if the
string starts with a capital letter `A`–`Z` and the rest — after greedily
skipping whitespace, at most one separator (`.`, `、`, `．`), and whitespace
again — contains no newline before its final character, `parse_option_label`
returns that letter as the key and the trimmed remainder as the text; in
every other case it returns an empty key together with the trimmed original
string. -/
theorem parse_option_label_spec (raw : String) :
    parse_option_label raw = parseOptionLabelGreedy raw := by
  rw [parse_option_label, parseOptionLabelGreedy]
  rcases ht : pyStrip raw.data with _ | ⟨c, rest⟩
  · rfl
  · simp only [optionLabelMatch, tailMatch_eq_greedyTail]
    by_cases hc : isAZ c = true
    · simp only [hc, if_true]
      rcases h : greedyTail rest with _ | cap <;> simp [h]
    · simp [hc]

/-! ## Question-type classification (`QuizSolver.run`, `main.py` 644–695) -/

theorem toNat_ofNat_valid (n : Nat) (h : n.isValidChar) : (Char.ofNat n).toNat = n := by
  rw [Char.ofNat, dif_pos h]
  have hlt : n < 2 ^ 32 := by
    rcases h with h | ⟨-, h⟩ <;> omega
  simp [Char.ofNatAux, Char.toNat, UInt32.toNat, BitVec.toNat_ofNatLt]

theorem toUpper_toLower (c : Char) : c.toLower.toUpper = c.toUpper := by
  by_cases h : c.toNat ≥ 65 ∧ c.toNat ≤ 90
  · have hvalid : (c.toNat + 32).isValidChar := by
      rcases h with ⟨h1, h2⟩
      left
      omega
    have hlow : c.toLower = Char.ofNat (c.toNat + 32) := by
      rw [Char.toLower, if_pos h]
    have htn : (Char.ofNat (c.toNat + 32)).toNat = c.toNat + 32 :=
      toNat_ofNat_valid _ hvalid
    have hup : (Char.ofNat (c.toNat + 32)).toUpper = Char.ofNat c.toNat := by
      rw [Char.toUpper, htn, if_pos (by omega)]
      congr 1
    have hupc : c.toUpper = c := by
      rw [Char.toUpper, if_neg (by omega)]
    rw [hlow, hup, hupc, Char.ofNat_toNat]
  · have hlow : c.toLower = c := by
      rw [Char.toLower, if_neg h]
    rw [hlow]

/-- Python `str.upper` (the tags are ASCII identifiers, on which Python's and
Lean's per-character upper-casing agree). -/
def pyUpper (s : String) : String := String.mk (s.data.map Char.toUpper)

/-- Python `str.lower`, used to state case-insensitivity. -/
def pyLower (s : String) : String := String.mk (s.data.map Char.toLower)

def isPrefixL : List Char → List Char → Bool
  | [], _ => true
  | _ :: _, [] => false
  | a :: as, b :: bs => a == b && isPrefixL as bs

def containsL (needle : List Char) : List Char → Bool
  | [] => isPrefixL needle []
  | c :: rest => isPrefixL needle (c :: rest) || containsL needle rest

/-- Python's `needle in hay` on strings: substring containment. -/
def pyIn (needle hay : String) : Bool := containsL needle.data hay.data

/-- `(q_el.get_attribute("data-type") or "").upper().strip()` from
`collect_current_question`: the tag as the dispatch sees it. -/
def normalizeTag (raw : String) : String := String.mk (pyStrip (pyUpper raw).data)

inductive QKind
  | choice
  | fill
  | code
  | unknown
deriving DecidableEq

/-- The CODE trigger set of `QuizSolver.run`:
`("PROGRAM", "SQL", "DESIGN", "CORRECT", "DB_SQL")`. -/
def codeTriggers : List String := ["PROGRAM", "SQL", "DESIGN", "CORRECT", "DB_SQL"]

/-- The question-type dispatch of `QuizSolver.run` in `main.py`:
`"SINGLE" in q.qtype or "JUDGE" in q.qtype` → choice; `elif "FILL" in q.qtype`
→ fill; `elif any(t in q.qtype for t in codeTriggers)` → code; `else` →
unknown (logged and skipped). -/
def classify (qtype : String) : QKind :=
  if pyIn "SINGLE" qtype || pyIn "JUDGE" qtype then .choice
  else if pyIn "FILL" qtype then .fill
  else if codeTriggers.any (fun t => pyIn t qtype) then .code
  else .unknown

/-- Classification as a function of the raw `data-type` attribute. -/
def classifyRaw (raw : String) : QKind := classify (normalizeTag raw)

theorem normalizeTag_lower (raw : String) :
    normalizeTag (pyLower raw) = normalizeTag raw := by
  have hd : (pyUpper (pyLower raw)).data = (pyUpper raw).data := by
    show (raw.data.map Char.toLower).map Char.toUpper = raw.data.map Char.toUpper
    rw [List.map_map]
    exact List.map_congr_left (fun c _ => toUpper_toLower c)
  rw [normalizeTag, normalizeTag, hd]

/-- **C5 counterexample.** `"SINGLE_FILL_SQL"` contains both the FILL trigger
and the CODE trigger `"SQL"`, yet the dispatch handles it as CHOICE (the
`SINGLE`/`JUDGE` check precedes the FILL check), so the claim's unrestricted
"FILL, not CODE" statement is false for it. -/
theorem classify_fill_code_cex :
    pyIn "FILL" (normalizeTag "SINGLE_FILL_SQL") = true ∧
    pyIn "SQL" (normalizeTag "SINGLE_FILL_SQL") = true ∧
    classifyRaw "SINGLE_FILL_SQL" = QKind.choice ∧
    QKind.choice ≠ QKind.fill := by
  refine ⟨by decide, by decide, by decide, by decide⟩

/-- **C5 (amended).** Classification is a pure, deterministic,
case-insensitive function of the type tag (lower-casing the raw tag does not
change the result), evaluated in the precedence order CHOICE, FILL, CODE:
every tag that contains a FILL-triggering substring and a CODE-triggering
substring but no CHOICE-triggering substring (`SINGLE`, `JUDGE`) is handled
as FILL, not CODE. -/
theorem classify_fill_precedes_code (tag : String) :
    classifyRaw (pyLower tag) = classifyRaw tag ∧
    (pyIn "FILL" (normalizeTag tag) = true →
      (codeTriggers.any fun t => pyIn t (normalizeTag tag)) = true →
      pyIn "SINGLE" (normalizeTag tag) = false →
      pyIn "JUDGE" (normalizeTag tag) = false →
      classifyRaw tag = QKind.fill ∧ classifyRaw tag ≠ QKind.code) := by
  constructor
  · rw [classifyRaw, classifyRaw, normalizeTag_lower]
  · intro hf _hc hs hj
    constructor
    · simp [classifyRaw, classify, hs, hj, hf]
    · simp [classifyRaw, classify, hs, hj, hf]

/-- Witness for C5 (amended): the real-world tag `"PROGRAM_FILL_BLANK"`
satisfies all hypotheses and is classified FILL. -/
theorem classify_fill_precedes_code_witness :
    pyIn "FILL" (normalizeTag "PROGRAM_FILL_BLANK") = true ∧
    (codeTriggers.any fun t => pyIn t (normalizeTag "PROGRAM_FILL_BLANK")) = true ∧
    pyIn "SINGLE" (normalizeTag "PROGRAM_FILL_BLANK") = false ∧
    pyIn "JUDGE" (normalizeTag "PROGRAM_FILL_BLANK") = false ∧
    classifyRaw "PROGRAM_FILL_BLANK" = QKind.fill := by
  refine ⟨by decide, by decide, by decide, by decide, ?_⟩
  exact ((classify_fill_precedes_code "PROGRAM_FILL_BLANK").2
    (by decide) (by decide) (by decide) (by decide)).1

/-! ## Letter-answer extraction (`QuizSolver.normalize_letter_answer`) -/

/-- `QuizSolver.normalize_letter_answer` (`main.py` 619–630, identical in the
variants): `None` for the empty answer; otherwise take
`text = ans.strip().upper()`, find the first `A`–`Z` character via
`re.search(r"([A-Z])", text)`, and return it when the valid-letters list is
empty or contains it; `None` in every other case. -/
def normalize_letter_answer (ans : String) (valid_letters : List String) :
    Option String :=
  if ans = "" then none
  else
    match ((pyStrip ans.data).map Char.toUpper).find? isAZ with
    | some c =>
      if valid_letters = [] ∨ String.mk [c] ∈ valid_letters then some (String.mk [c])
      else none
    | none => none

theorem toUpper_ws (c : Char) (h : pyWS c = true) : c.toUpper = c := by
  have : c = ' ' ∨ c = '\t' ∨ c = '\n' ∨ c = '\r' ∨ c = '\x0b' ∨ c = '\x0c' := by
    simpa [pyWS, or_assoc] using h
  rcases this with rfl | rfl | rfl | rfl | rfl | rfl <;> decide

theorem isAZ_toUpper_ws (c : Char) (h : pyWS c = true) : isAZ c.toUpper = false := by
  rw [toUpper_ws c h]
  have : c = ' ' ∨ c = '\t' ∨ c = '\n' ∨ c = '\r' ∨ c = '\x0b' ∨ c = '\x0c' := by
    simpa [pyWS, or_assoc] using h
  rcases this with rfl | rfl | rfl | rfl | rfl | rfl <;> decide

/-- Searching for the first `A`–`Z` character is unaffected by stripping the
surrounding whitespace first, since whitespace never upper-cases to a
letter. -/
theorem find?_isAZ_pyStrip (l : List Char) :
    ((pyStrip l).map Char.toUpper).find? isAZ = none →
      (l.map Char.toUpper).find? isAZ = none := by
  intro h
  rcases pyStrip_append l with ⟨t, ht, htws⟩
  have hl : l = l.takeWhile pyWS ++ (pyStrip l ++ t) := by
    rw [← ht, List.takeWhile_append_dropWhile]
  rw [hl, List.map_append, List.map_append, List.find?_append, List.find?_append]
  have h1 : ((l.takeWhile pyWS).map Char.toUpper).find? isAZ = none := by
    rw [List.find?_eq_none]
    intro x hx
    rw [List.mem_map] at hx
    rcases hx with ⟨c, hc, rfl⟩
    simp [isAZ_toUpper_ws c (List.mem_takeWhile_imp hc)]
  have h2 : (t.map Char.toUpper).find? isAZ = none := by
    rw [List.find?_eq_none]
    intro x hx
    rw [List.mem_map] at hx
    rcases hx with ⟨c, hc, rfl⟩
    simp [isAZ_toUpper_ws c (htws c hc)]
  rw [h1, h2, h, Option.none_or, Option.or_none]

theorem find?_isAZ_pyStrip_some (l : List Char) (c : Char)
    (h : ((pyStrip l).map Char.toUpper).find? isAZ = some c) :
    (l.map Char.toUpper).find? isAZ = some c := by
  rcases pyStrip_append l with ⟨t, ht, -⟩
  have hl : l = l.takeWhile pyWS ++ (pyStrip l ++ t) := by
    rw [← ht, List.takeWhile_append_dropWhile]
  rw [hl, List.map_append, List.map_append, List.find?_append, List.find?_append]
  have h1 : ((l.takeWhile pyWS).map Char.toUpper).find? isAZ = none := by
    rw [List.find?_eq_none]
    intro x hx
    rw [List.mem_map] at hx
    rcases hx with ⟨d, hd, rfl⟩
    simp [isAZ_toUpper_ws d (List.mem_takeWhile_imp hd)]
  rw [h1, h, Option.none_or]
  rfl

/-- **C10.** `normalize_letter_answer` returns `none` or a single uppercase
Latin letter; whenever the valid-letters list is non-empty, a returned letter
is a member of it; and the returned letter is the first `A`–`Z` character of
the upper-cased answer text. -/
theorem normalize_letter_answer_spec (ans : String) (valid_letters : List String)
    (r : String) (h : normalize_letter_answer ans valid_letters = some r) :
    ∃ c, r = String.mk [c] ∧ isAZ c = true ∧
      (valid_letters ≠ [] → r ∈ valid_letters) ∧
      (ans.data.map Char.toUpper).find? isAZ = some c := by
  rw [normalize_letter_answer] at h
  by_cases hans : ans = ""
  · rw [if_pos hans] at h
    exact absurd h (by simp)
  · rw [if_neg hans] at h
    rcases hf : ((pyStrip ans.data).map Char.toUpper).find? isAZ with _ | c
    · rw [hf] at h
      exact absurd h (by simp)
    · rw [hf] at h
      dsimp only at h
      by_cases hv : valid_letters = [] ∨ String.mk [c] ∈ valid_letters
      · rw [if_pos hv] at h
        have hr : r = String.mk [c] := by
          have := h.symm
          simpa using this
        refine ⟨c, hr, ?_, ?_, find?_isAZ_pyStrip_some ans.data c hf⟩
        · have := List.find?_some hf
          exact this
        · intro hne
          rcases hv with hv | hv
          · exact absurd hv hne
          · rw [hr]; exact hv
      · rw [if_neg hv] at h
        exact absurd h (by simp)

/-- Witness for C10, at the spec's own end-to-end example: the upstream
answer `"答案是B"` with options `A`/`B`/`C` yields the letter `B`. -/
theorem normalize_letter_answer_spec_witness :
    normalize_letter_answer "答案是B" ["A", "B", "C"] = some "B" ∧
    ∃ c, ("B" : String) = String.mk [c] ∧ isAZ c = true ∧
      ((["A", "B", "C"] : List String) ≠ [] → ("B" : String) ∈ ["A", "B", "C"]) ∧
      (("答案是B" : String).data.map Char.toUpper).find? isAZ = some c :=
  ⟨by decide, normalize_letter_answer_spec "答案是B" ["A", "B", "C"] "B" (by decide)⟩

/-! ## Inline-image rendering (`render_element_text_with_inline_latex`,
`main.py` 244–308) -/

/-- A token of an element's `innerHTML`, as the three regex passes of
`render_element_text_with_inline_latex` see it: literal text (containing no
tag), a `<br>`-class tag (`(?i)<br\s*/?>`), an `<img ...>` tag
(`(?i)<img\b[^>]*>`), or any other HTML tag (`<[^>]+>`).  For a well-formed
element, the CSS query `element.find_elements("img")` returns the images in
exactly the order of the `.img` tokens of its `innerHTML`. -/
inductive HSeg
  | txt (s : String)
  | br
  | img (attrs : String)
  | tag (s : String)

/-- `len(imgs)`: the number of images under the element, in DOM order. -/
def countImgs : List HSeg → Nat
  | [] => 0
  | HSeg.txt _ :: rest => countImgs rest
  | HSeg.br :: rest => countImgs rest
  | HSeg.img _ :: rest => countImgs rest + 1
  | HSeg.tag _ :: rest => countImgs rest

/-- The `formulas` list: one recognized-text slot per image, in DOM order.
`recog i = some s` models a successful OCR call on the `i`-th image (the
source stores `str(...).strip()`); `recog i = none` models a failed call or
missing screenshot bytes, for which the source appends `""`.  With OCR
disabled the source fills every slot with `""`, i.e. `recog = fun _ => none`. -/
def buildFormulas (n : Nat) (recog : Nat → Option String) : List String :=
  (List.range n).map (fun i =>
    match recog i with
    | some s => String.mk (pyStrip s.data)
    | none => "")

/-- The replacement `_img_replacer` produces for one image, given its
recognized text: `" [公式: <latex>] "` when non-empty, `" [图片] "` else. -/
def mkMarker (latex : String) : String :=
  if latex ≠ "" then " [公式: " ++ latex ++ "] " else " [图片] "

/-- One piece of the string after the first two substitution passes:
carried-over text, a still-unstripped HTML tag, or the marker substituted
for one image. -/
inductive RPiece
  | raw (s : String)
  | tagRaw (s : String)
  | marker (latex : String)

/-- The string a piece contributes after passes 1–2 (before tag stripping):
tags are still present verbatim. -/
def pieceStr : RPiece → String
  | RPiece.raw s => s
  | RPiece.tagRaw s => s
  | RPiece.marker l => mkMarker l

/-- The string a piece contributes after the third pass removes every
complete HTML tag: a tag piece contributes nothing. -/
def pieceStrFinal : RPiece → String
  | RPiece.raw s => s
  | RPiece.tagRaw _ => ""
  | RPiece.marker l => mkMarker l

/-- The first two regex passes of `render_element_text_with_inline_latex`,
over the token list: `<br>` → `"\n"`, and each `<img ...>` → the marker for
`formulas[index]` (with `""` when the index is out of range, mirroring
`formulas[index] if index < len(formulas) else ""`) while the closure counter
`index` advances by one per image.  Text and the remaining tags are carried
through unchanged — the source strips tags only afterwards, with
`re.sub(r"<[^>]+>", "", html)` over the whole substituted string
(`stripTags` below). -/
def substPasses : List HSeg → List String → Nat → List RPiece
  | [], _, _ => []
  | HSeg.txt s :: rest, fs, i => RPiece.raw s :: substPasses rest fs i
  | HSeg.br :: rest, fs, i => RPiece.raw "\n" :: substPasses rest fs i
  | HSeg.img _ :: rest, fs, i =>
      RPiece.marker (fs.getD i "") :: substPasses rest fs (i + 1)
  | HSeg.tag s :: rest, fs, i => RPiece.tagRaw s :: substPasses rest fs i

/-- The concatenation of the pieces' strings under a rendering `f`. -/
def joinPieces (f : RPiece → String) : List RPiece → List Char
  | [] => []
  | p :: ps => (f p).data ++ joinPieces f ps

/-- The scan of `re.sub(r"<[^>]+>", "", html)`: outside a candidate tag
(state `none`) a `<` opens one; inside (state `some buf`, `buf` holding the
characters read since the `<`, none of them `>`) a `>` closes it, deleting
the whole `<...>` span when at least one character lies between (`[^>]+` must
be non-empty, so `<>` matches nothing and is emitted verbatim); the end of
the input emits an unclosed candidate verbatim (a match needs a `>`).  This
is the leftmost scan with `[^>]+` greedily running to the next `>`, exactly
Python's behaviour for this pattern. -/
def stripTagsGo : Option (List Char) → List Char → List Char
  | none, [] => []
  | none, c :: rest =>
    if c = '<' then stripTagsGo (some []) rest else c :: stripTagsGo none rest
  | some buf, [] => '<' :: buf
  | some buf, c :: rest =>
    if c = '>' then
      if buf = [] then '<' :: '>' :: stripTagsGo none rest
      else stripTagsGo none rest
    else stripTagsGo (some (buf ++ [c])) rest

/-- The third pass of `render_element_text_with_inline_latex`:
`re.sub(r"<[^>]+>", "", html)` on the whole substituted string. -/
def stripTags (l : List Char) : List Char := stripTagsGo none l

/-- `render_element_text_with_inline_latex` on an element whose `innerHTML`
tokenizes to `segs`, with per-image recognition outcomes `recog`: build the
`formulas` list, run the `<br>` and `<img>` substitution passes, strip every
remaining complete HTML tag from the joined string — a pass that also edits
marker contents containing tag-like spans — and `clean_whitespace`. -/
def render_element_text_with_inline_latex
    (segs : List HSeg) (recog : Nat → Option String) : String :=
  clean_whitespace (String.mk (stripTags (joinPieces pieceStr
    (substPasses segs (buildFormulas (countImgs segs) recog) 0))))

/-- The markers among the output pieces, in output order. -/
def markersOf (ps : List RPiece) : List String :=
  ps.filterMap (fun p =>
    match p with
    | RPiece.marker l => some (mkMarker l)
    | _ => none)

theorem buildFormulas_length (n : Nat) (recog : Nat → Option String) :
    (buildFormulas n recog).length = n := by
  rw [buildFormulas, List.length_map, List.length_range]

theorem markersOf_substPasses :
    ∀ (segs : List HSeg) (fs : List String) (i : Nat),
      i + countImgs segs ≤ fs.length →
      markersOf (substPasses segs fs i) =
        ((fs.drop i).take (countImgs segs)).map mkMarker := by
  intro segs
  induction segs with
  | nil => intro fs i _; simp [substPasses, markersOf, countImgs]
  | cons seg rest ih =>
    intro fs i hle
    cases seg with
    | txt s =>
      simp only [countImgs] at hle ⊢
      simpa [substPasses, markersOf] using ih fs i hle
    | br =>
      simp only [countImgs] at hle ⊢
      simpa [substPasses, markersOf] using ih fs i hle
    | tag s =>
      simp only [countImgs] at hle ⊢
      simpa [substPasses, markersOf] using ih fs i hle
    | img attrs =>
      simp only [countImgs] at hle ⊢
      have hi : i < fs.length := by omega
      have hgd : fs.getD i "" = fs.get ⟨i, hi⟩ := by
        rw [List.getD_eq_getElem?_getD, List.getElem?_eq_getElem hi]
        rfl
      have hdrop : fs.drop i = fs.get ⟨i, hi⟩ :: fs.drop (i + 1) := by
        rw [List.drop_eq_getElem_cons hi]
        rfl
      have hih := ih fs (i + 1) (by omega)
      simp only [substPasses, markersOf, List.filterMap_cons] at *
      rw [hih, hgd, hdrop, List.take_succ_cons, List.map_cons]

/-- No angle bracket among the characters: such a string passes the
tag-stripping regex unchanged. -/
def noAngleB (l : List Char) : Bool := l.all (fun c => c != '<' && c != '>')

/-- The string is one complete HTML tag, i.e. one match of `<[^>]+>`:
a `<`, at least one character none of which is `>`, then a `>`. -/
def isTagToken (l : List Char) : Bool :=
  match l with
  | [] => false
  | c :: rest =>
    (c == '<') && !rest.dropLast.isEmpty && decide (rest.getLast? = some '>') &&
      rest.dropLast.all (fun x => x != '>')

/-- Well-formed `innerHTML` token: text between tags carries no bare angle
bracket (a well-formed document escapes them as `&lt;`/`&gt;`), and a tag
token is one complete `<...>` match. -/
def segWF : HSeg → Bool
  | HSeg.txt s => noAngleB s.data
  | HSeg.br => true
  | HSeg.img _ => true
  | HSeg.tag s => isTagToken s.data

/-- The per-piece condition under which the whole-string tag-stripping pass
acts piecewise: angle-free carried text, complete tag tokens, and markers
whose recognized text is angle-free. -/
def pieceWF : RPiece → Bool
  | RPiece.raw s => noAngleB s.data
  | RPiece.tagRaw s => isTagToken s.data
  | RPiece.marker l => noAngleB l.data

theorem noAngleB_no_lt (l : List Char) (h : noAngleB l = true) :
    ∀ c ∈ l, ¬c = '<' := by
  intro c hc
  have := List.all_eq_true.mp h c hc
  simp only [Bool.and_eq_true, bne_iff_ne, ne_eq] at this
  exact this.1

theorem stripTagsGo_none_cons_ne (c : Char) (l : List Char) (h : ¬c = '<') :
    stripTagsGo none (c :: l) = c :: stripTagsGo none l := by
  simp [stripTagsGo, h]

theorem stripTags_append_noLT (a b : List Char) (h : ∀ c ∈ a, ¬c = '<') :
    stripTags (a ++ b) = a ++ stripTags b := by
  induction a with
  | nil => simp
  | cons d t ih =>
    have hd : ¬d = '<' := h d (List.mem_cons_self d t)
    rw [List.cons_append, stripTags, stripTagsGo_none_cons_ne _ _ hd]
    rw [stripTags] at ih
    rw [ih (fun c hc => h c (List.mem_cons_of_mem d hc)), List.cons_append]

theorem stripTagsGo_some_skip (b : List Char) :
    ∀ (body buf : List Char), (∀ c ∈ body, ¬c = '>') → (body = [] → buf ≠ []) →
      stripTagsGo (some buf) (body ++ '>' :: b) = stripTagsGo none b := by
  intro body
  induction body with
  | nil =>
    intro buf _ hbuf
    have hne : buf ≠ [] := hbuf rfl
    simp [stripTagsGo, hne]
  | cons d ds ih =>
    intro buf hbody _
    have hd : ¬d = '>' := hbody d (List.mem_cons_self d ds)
    rw [List.cons_append, stripTagsGo.eq_def]
    simp only [hd, if_false]
    exact ih (buf ++ [d]) (fun c hc => hbody c (List.mem_cons_of_mem d hc))
      (fun _ => by simp)

theorem stripTags_tagToken (p b : List Char) (hp : isTagToken p = true) :
    stripTags (p ++ b) = stripTags b := by
  rcases p with _ | ⟨c, rest⟩
  · exact absurd hp (by simp [isTagToken])
  · simp only [isTagToken, Bool.and_eq_true, beq_iff_eq, Bool.not_eq_true',
      decide_eq_true_eq, List.all_eq_true, bne_iff_ne, ne_eq] at hp
    obtain ⟨⟨⟨hc, hne⟩, hlast⟩, hall⟩ := hp
    subst hc
    have hsplit : rest.dropLast ++ ['>'] = rest :=
      List.dropLast_append_getLast? '>' hlast
    have hne' : rest.dropLast ≠ [] := by
      intro he
      rw [he] at hne
      simp at hne
    have hrw : ('<' :: rest) ++ b = '<' :: (rest.dropLast ++ ('>' :: b)) := by
      conv_lhs => rw [← hsplit]
      simp
    rw [hrw, stripTags]
    have hstep : stripTagsGo none ('<' :: (rest.dropLast ++ '>' :: b)) =
        stripTagsGo (some []) (rest.dropLast ++ '>' :: b) := by
      simp [stripTagsGo]
    rw [hstep,
      stripTagsGo_some_skip b rest.dropLast [] hall (fun he => absurd he hne')]
    rfl

theorem noAngleB_mkMarker (l : String) (h : noAngleB l.data = true) :
    noAngleB (mkMarker l).data = true := by
  rw [mkMarker]
  by_cases hl : l ≠ ""
  · rw [if_pos hl]
    have hd : (" [公式: " ++ l ++ "] ").data =
        (" [公式: " : String).data ++ l.data ++ ("] " : String).data := by
      rw [String.data_append, String.data_append]
    rw [hd]
    simp only [noAngleB, List.all_append, Bool.and_eq_true]
    exact ⟨⟨by decide, h⟩, by decide⟩
  · rw [if_neg hl]
    decide

theorem substPasses_pieceWF :
    ∀ (segs : List HSeg) (fs : List String) (i : Nat),
      (∀ s ∈ segs, segWF s = true) → (∀ f ∈ fs, noAngleB f.data = true) →
      ∀ p ∈ substPasses segs fs i, pieceWF p = true := by
  intro segs
  induction segs with
  | nil => intro fs i _ _ p hp; simp [substPasses] at hp
  | cons seg rest ih =>
    intro fs i hseg hfs p hp
    have hrest := fun s hs => hseg s (List.mem_cons_of_mem seg hs)
    cases seg with
    | txt s =>
      simp only [substPasses, List.mem_cons] at hp
      rcases hp with rfl | hp
      · exact hseg (HSeg.txt s) (List.mem_cons_self _ _)
      · exact ih fs i hrest hfs p hp
    | br =>
      simp only [substPasses, List.mem_cons] at hp
      rcases hp with rfl | hp
      · decide
      · exact ih fs i hrest hfs p hp
    | img attrs =>
      simp only [substPasses, List.mem_cons] at hp
      rcases hp with rfl | hp
      · show noAngleB (fs.getD i "").data = true
        by_cases hi : i < fs.length
        · have hgd : fs.getD i "" = fs.get ⟨i, hi⟩ := by
            rw [List.getD_eq_getElem?_getD, List.getElem?_eq_getElem hi]
            rfl
          rw [hgd]
          exact hfs _ (List.get_mem fs i hi)
        · have hgd : fs.getD i "" = "" := by
            rw [List.getD_eq_getElem?_getD, List.getElem?_eq_none (by omega)]
            rfl
          rw [hgd]
          decide
      · exact ih fs (i + 1) hrest hfs p hp
    | tag s =>
      simp only [substPasses, List.mem_cons] at hp
      rcases hp with rfl | hp
      · exact hseg (HSeg.tag s) (List.mem_cons_self _ _)
      · exact ih fs i hrest hfs p hp

/-- Under the well-formedness conditions, the whole-string tag-stripping pass
acts piecewise: it deletes exactly the tag pieces and leaves carried text and
markers intact. -/
theorem stripTags_joinPieces :
    ∀ ps : List RPiece, (∀ p ∈ ps, pieceWF p = true) →
      stripTags (joinPieces pieceStr ps) = joinPieces pieceStrFinal ps := by
  intro ps
  induction ps with
  | nil => intro _; rfl
  | cons p rest ih =>
    intro h
    have hp := h p (List.mem_cons_self p rest)
    have hrest := ih (fun q hq => h q (List.mem_cons_of_mem p hq))
    cases p with
    | raw s =>
      rw [joinPieces, joinPieces]
      dsimp only [pieceStr, pieceStrFinal]
      rw [stripTags_append_noLT _ _ (noAngleB_no_lt s.data hp), hrest]
    | tagRaw s =>
      rw [joinPieces, joinPieces]
      dsimp only [pieceStr, pieceStrFinal]
      rw [stripTags_tagToken _ _ hp, hrest]
      rfl
    | marker l =>
      rw [joinPieces, joinPieces]
      dsimp only [pieceStr, pieceStrFinal]
      rw [stripTags_append_noLT _ _ (noAngleB_no_lt _ (noAngleB_mkMarker l hp)), hrest]

/-- **C1 counterexample.** The source's tag-stripping pass runs over the
whole string after marker substitution, so recognized text containing an
HTML-tag-like span is edited inside its marker: with the single image
recognized as `"a<b>c"` (non-empty), the program renders `"[公式: ac]"` — the
claimed marker `"[公式: a<b>c]"`, built from the recognized text verbatim,
does not occur in the output at all. -/
theorem render_inline_latex_cex :
    buildFormulas (countImgs [HSeg.img "src"]) (fun _ => some "a<b>c") = ["a<b>c"] ∧
    render_element_text_with_inline_latex [HSeg.img "src"] (fun _ => some "a<b>c") =
      "[公式: ac]" ∧
    pyIn "[公式: a<b>c]"
      (render_element_text_with_inline_latex [HSeg.img "src"]
        (fun _ => some "a<b>c")) = false := by
  refine ⟨by decide, by decide, by decide⟩

/-- **C1 (amended).** For an element whose `innerHTML` interleaves text with
`N` `<img>` tags — the text angle-free and every other tag one complete
`<...>` token — and recognition outcomes whose recognized texts are
angle-free, the substitution output contains exactly `N` markers, the `i`-th
in output order being the marker for the `i`-th image's recognition slot in
DOM order (`" [公式: <latex>] "` when the recognized text is non-empty,
`" [图片] "` otherwise), for every assignment of per-image recognition
outcomes (success, failure, or OCR disabled); the rendered string is
`clean_whitespace` of the concatenation of these pieces with the tag pieces
deleted.  A recognized text containing an HTML-tag-like span instead has
that span removed inside its marker by the final whole-string tag-stripping
pass. -/
theorem render_inline_latex_marker_order
    (segs : List HSeg) (recog : Nat → Option String)
    (hseg : ∀ s ∈ segs, segWF s = true)
    (hfs : ∀ f ∈ buildFormulas (countImgs segs) recog, noAngleB f.data = true) :
    markersOf (substPasses segs (buildFormulas (countImgs segs) recog) 0) =
      (buildFormulas (countImgs segs) recog).map mkMarker ∧
    (markersOf (substPasses segs (buildFormulas (countImgs segs) recog) 0)).length =
      countImgs segs ∧
    render_element_text_with_inline_latex segs recog =
      clean_whitespace (String.mk (joinPieces pieceStrFinal
        (substPasses segs (buildFormulas (countImgs segs) recog) 0))) := by
  have hlen := buildFormulas_length (countImgs segs) recog
  have hmk := markersOf_substPasses segs (buildFormulas (countImgs segs) recog) 0
    (by rw [hlen]; omega)
  rw [List.drop_zero] at hmk
  have htake : (buildFormulas (countImgs segs) recog).take (countImgs segs) =
      buildFormulas (countImgs segs) recog :=
    List.take_of_length_le (le_of_eq hlen)
  rw [htake] at hmk
  refine ⟨hmk, by rw [hmk, List.length_map, hlen], ?_⟩
  rw [render_element_text_with_inline_latex,
    stripTags_joinPieces _ (substPasses_pieceWF segs _ 0 hseg hfs)]

/-- A concrete element for the C1 witness: text, a line break, a `<p>` tag
and one image, recognized as `"x^2"`. -/
def c1Segs : List HSeg :=
  [HSeg.txt "见图", HSeg.br, HSeg.tag "<p>", HSeg.img "i", HSeg.txt "。"]

def c1Recog : Nat → Option String := fun _ => some "x^2"

/-- Witness for C1 (amended) at a concrete well-formed element. -/
theorem render_inline_latex_marker_order_witness :
    markersOf (substPasses c1Segs (buildFormulas (countImgs c1Segs) c1Recog) 0) =
      (buildFormulas (countImgs c1Segs) c1Recog).map mkMarker ∧
    (markersOf (substPasses c1Segs (buildFormulas (countImgs c1Segs) c1Recog) 0)).length =
      countImgs c1Segs ∧
    render_element_text_with_inline_latex c1Segs c1Recog =
      clean_whitespace (String.mk (joinPieces pieceStrFinal
        (substPasses c1Segs (buildFormulas (countImgs c1Segs) c1Recog) 0))) :=
  render_inline_latex_marker_order c1Segs c1Recog (by decide) (by decide)

/-! ## Editor injection (`set_editor_content`; three identical copies:
`main.py` 431–566, `quiz_solver.py` 272–407, `quiz_solver_code.py` 106–229)

Every external call the function makes (waits, `execute_script`, frame
switches) is modelled by its outcome in an environment; a raised Python
exception is an `Except.error`. -/

/-- Python exception classes relevant to the solver's handlers. -/
inductive Err
  | timeout
  | notFound
  | webdriver
  | llm
deriving DecidableEq

instance exceptDecEq {ε α : Type} [DecidableEq ε] [DecidableEq α] :
    DecidableEq (Except ε α) := fun x y =>
  match x, y with
  | .ok a, .ok b =>
    if h : a = b then .isTrue (congrArg Except.ok h)
    else .isFalse (fun hc => h (Except.ok.inj hc))
  | .error a, .error b =>
    if h : a = b then .isTrue (congrArg Except.error h)
    else .isFalse (fun hc => h (Except.error.inj hc))
  | .ok _, .error _ => .isFalse (fun hc => Except.noConfusion hc)
  | .error _, .ok _ => .isFalse (fun hc => Except.noConfusion hc)

/-- Outcomes of one Monaco frame attempt (`_try_monaco_in_frame`): locate
and switch into the frame, run the `setValue` script, switch back to the
parent document in the `finally`. -/
structure FrameEnv where
  findFrame : Except Err Unit
  script : Except Err Bool
  restoreDefault : Except Err Unit
deriving DecidableEq

/-- Outcomes of every external call `set_editor_content` can make, one field
per call site, in source order. -/
structure EditorEnv where
  tinymceScript : Except Err Bool
  frame1 : FrameEnv
  frame2 : FrameEnv
  frame3 : FrameEnv
  textareaFind : Except Err Unit
  textareaScript : Except Err Unit
  ceFindQC : Except Err Unit
  ceFindCE : Except Err Unit
  ceScript : Except Err Unit
deriving DecidableEq

/-- `_try_monaco_in_frame`: a failure to find or enter the frame is caught
and reports `False`; the script's flag is returned only when the `finally`
restore also succeeds (a restore failure is caught by the outer `except`,
which restores again, swallowing its own failure, and returns `False`).
No exception leaves the helper. -/
def tryMonacoInFrame (fe : FrameEnv) : Bool :=
  match fe.findFrame with
  | .error _ => false
  | .ok _ =>
    match fe.script, fe.restoreDefault with
    | .ok b, .ok _ => b
    | _, _ => false

/-- The TinyMCE stage: `execute_script` returns the `ok` flag; a raised
exception is caught (`except Exception: pass`) and counts as no update. -/
def tinymceOk (env : EditorEnv) : Bool :=
  match env.tinymceScript with
  | .ok b => b
  | .error _ => false

/-- The Monaco stage: the `for css in (...)` loop over the three frame
selectors, succeeding at the first frame that accepts the value. -/
def monacoOk (env : EditorEnv) : Bool :=
  tryMonacoInFrame env.frame1 || tryMonacoInFrame env.frame2 ||
    tryMonacoInFrame env.frame3

/-- The plain-textarea stage: the presence wait and the value-setting script
must both succeed; any exception is caught and the stage fails. -/
def textareaOk (env : EditorEnv) : Bool :=
  match env.textareaFind, env.textareaScript with
  | .ok _, .ok _ => true
  | _, _ => false

/-- The contenteditable stage: locate `#question_content`, falling back to
`[contenteditable='true']` when the first wait raises, then run the
text-setting script; any exception is caught and the stage fails. -/
def contentEditableOk (env : EditorEnv) : Bool :=
  match env.ceFindQC with
  | .ok _ =>
    match env.ceScript with
    | .ok _ => true
    | .error _ => false
  | .error _ =>
    match env.ceFindCE, env.ceScript with
    | .ok _, .ok _ => true
    | _, _ => false

/-- The four editor backends, in the order the source tries them. -/
inductive Backend
  | tinymce
  | monaco
  | plainTextarea
  | contentEditable
deriving DecidableEq

def backendOrder : List Backend :=
  [Backend.tinymce, Backend.monaco, Backend.plainTextarea, Backend.contentEditable]

/-- Whether a given backend's attempt would succeed in this environment. -/
def backendOk (env : EditorEnv) : Backend → Bool
  | Backend.tinymce => tinymceOk env
  | Backend.monaco => monacoOk env
  | Backend.plainTextarea => textareaOk env
  | Backend.contentEditable => contentEditableOk env

/-- `set_editor_content`: the sequential `if`s mirror the source's
early-`return True` fall-through over the four stages, each of which catches
its own exceptions.  The result is instrumented with the list of backends
attempted (ghost information for the ordering property); the `Bool` is the
function's return value, and the `Except` wrapper makes a propagating
exception representable — no code path produces one. -/
def set_editor_content (env : EditorEnv) : Except Err (Bool × List Backend) :=
  if tinymceOk env then .ok (true, [Backend.tinymce])
  else if monacoOk env then .ok (true, [Backend.tinymce, Backend.monaco])
  else if textareaOk env then
    .ok (true, [Backend.tinymce, Backend.monaco, Backend.plainTextarea])
  else if contentEditableOk env then .ok (true, backendOrder)
  else .ok (false, backendOrder)

/-- The prefix of the backend order up to and including the first success
(the whole order when none succeeds): the backends a short-circuiting
left-to-right scan attempts. -/
def attemptedBackends (p : Backend → Bool) : List Backend → List Backend
  | [] => []
  | b :: rest => if p b then [b] else b :: attemptedBackends p rest

/-- **C3.** `set_editor_content` tries TinyMCE, Monaco-in-iframe, plain
textarea, contenteditable strictly in that order; it attempts exactly the
prefix of that order ending at the first backend that succeeds, returning
`true`, and attempts all four and returns `false` exactly when every backend
fails; and no exception escapes (the result is always `Except.ok`). -/
theorem set_editor_content_spec (env : EditorEnv) :
    set_editor_content env =
      .ok (backendOrder.any (backendOk env),
        attemptedBackends (backendOk env) backendOrder) ∧
    (set_editor_content env = .ok (false, backendOrder) ↔
      ∀ b ∈ backendOrder, backendOk env b = false) := by
  by_cases h1 : tinymceOk env <;>
    by_cases h2 : monacoOk env <;>
      by_cases h3 : textareaOk env <;>
        by_cases h4 : contentEditableOk env <;>
          simp [set_editor_content, attemptedBackends, backendOrder, backendOk,
            h1, h2, h3, h4]

/-! ## Advancing to the next question (`go_next_question`, `main.py` 579–607;
`go_next_and_check_last`, `quiz_solver_code.py` 243–268, identical; and the
divergent `quiz_solver_mc_fill.py` 221–239 variant) -/

/-- Outcomes of the external calls of the advance step:
`nextBtn` is the clickable-wait plus click on `cmd_next` (uncaught, so a
failure propagates); `alertText = some t` means an alert with text `t`
appeared within the short wait (a `None` text is `some ""`, after `or ""`),
`none` means the wait timed out (caught); `staleness` is the wait for the old
question element to become stale. -/
structure NavEnv where
  nextBtn : Except Err Unit
  alertText : Option String
  staleness : Except Err Unit
deriving DecidableEq

inductive NavAction
  | clickNext
  | acceptAlert
  | logStaleTimeout
deriving DecidableEq

/-- The terminal sentinel test: `"最后一题" in (alert.text or "").strip()`. -/
def isLastMsg (t : String) : Bool := pyIn "最后一题" (String.mk (pyStrip t.data))

/-- `QuizSolver.go_next_question` (`main.py`; `go_next_and_check_last` in
`quiz_solver_code.py` is the same function): click next; if an alert appears
within `SHORT_WAIT_SECONDS`, set the terminal flag iff its stripped text
contains `"最后一题"` and always `accept()` it (no alert: the
`TimeoutException` is caught); then wait for the previous question element to
become stale, where a `TimeoutException` is caught and logged
(`logStaleTimeout`) and any other exception propagates; return the flag.
Instrumented with the list of performed UI actions. -/
def go_next_question (env : NavEnv) : Except Err (Bool × List NavAction) :=
  match env.nextBtn with
  | .error e => .error e
  | .ok _ =>
    let alertStep : Bool × List NavAction :=
      match env.alertText with
      | some t => (isLastMsg t, [NavAction.acceptAlert])
      | none => (false, [])
    match env.staleness with
    | .ok _ => .ok (alertStep.1, NavAction.clickNext :: alertStep.2)
    | .error Err.timeout =>
      .ok (alertStep.1, NavAction.clickNext :: alertStep.2 ++ [NavAction.logStaleTimeout])
    | .error e => .error e

/-- The `quiz_solver_mc_fill.py` variant of `go_next_question`: it clicks
next, then runs `self.wait.until(EC.staleness_of(old_q_el))` with no handler
— a timeout there raises — and only afterwards checks for the alert. -/
def mcfill_go_next_question (env : NavEnv) : Except Err (Bool × List NavAction) :=
  match env.nextBtn with
  | .error e => .error e
  | .ok _ =>
    match env.staleness with
    | .error e => .error e
    | .ok _ =>
      match env.alertText with
      | some t =>
        .ok (isLastMsg t, [NavAction.clickNext, NavAction.acceptAlert])
      | none => .ok (false, [NavAction.clickNext])

/-- **C8 counterexample.** With the next-click succeeding and the staleness
wait timing out, the `quiz_solver_mc_fill.py` advance step — one of the
claim's cited `go_next_question` implementations — propagates the
`TimeoutException` instead of returning its terminal flag, while the
`main.py`/`quiz_solver_code.py` implementation logs it and returns normally. -/
theorem go_next_staleness_cex :
    mcfill_go_next_question ⟨Except.ok (), none, Except.error Err.timeout⟩ =
      Except.error Err.timeout ∧
    go_next_question ⟨Except.ok (), none, Except.error Err.timeout⟩ =
      Except.ok (false, [NavAction.clickNext, NavAction.logStaleTimeout]) :=
  ⟨rfl, rfl⟩

/-- **C8 (amended).** In the `main.py` and `quiz_solver_code.py` advance step,
for every environment in which the next-click succeeded, the bounded wait for
the previous question element to become stale is non-fatal on timeout: the
function still returns `Except.ok` with the same terminal flag it returns
when the element goes stale in time, plus a log entry.  (In the
`quiz_solver_mc_fill.py` variant the staleness wait is unguarded and its
timeout propagates, ending the run.) -/
theorem go_next_staleness_nonfatal (env : NavEnv) (h : env.nextBtn = Except.ok ()) :
    ∃ isLast acts,
      go_next_question { env with staleness := Except.error Err.timeout } =
        Except.ok (isLast, acts ++ [NavAction.logStaleTimeout]) ∧
      go_next_question { env with staleness := Except.ok () } =
        Except.ok (isLast, acts) := by
  rcases env with ⟨nb, at?, st⟩
  subst h
  rcases at? with _ | t
  · exact ⟨false, [NavAction.clickNext], rfl, rfl⟩
  · exact ⟨isLastMsg t, [NavAction.clickNext, NavAction.acceptAlert], rfl, rfl⟩

/-- Witness for C8 (amended), at an environment with an alert lacking the
sentinel. -/
theorem go_next_staleness_nonfatal_witness :
    ∃ isLast acts,
      go_next_question ⟨Except.ok (), some "确认", Except.error Err.timeout⟩ =
        Except.ok (isLast, acts ++ [NavAction.logStaleTimeout]) ∧
      go_next_question ⟨Except.ok (), some "确认", Except.ok ()⟩ =
        Except.ok (isLast, acts) :=
  go_next_staleness_nonfatal ⟨Except.ok (), some "确认", Except.error Err.timeout⟩ rfl

/-! ## The orchestrator loop (`QuizSolver.run`, `main.py` 633–707; the
divergent dispatch of `quiz_solver.py` 473–537) -/

/-- The `Option` dataclass: a parsed option label (`key` is the letter or
empty, `text` the remainder).  Named `QOption` because `Option` is taken. -/
structure QOption where
  key : String
  text : String
deriving DecidableEq

/-- The `QuestionSnapshot` dataclass. -/
structure QuestionSnapshot where
  qid : String
  qtype : String
  text : String
  options : List QOption
deriving DecidableEq

/-- Outcomes of the external calls one loop iteration can make:
`capture` covers `wait_for_question_item` + `collect_current_question`
(outside the `try`); `llm` is `self.llm.ask`; `clickChoice` is
`click_single_choice`; `fillBlanksRes` is `fill_blanks` (all inside the
`try`); `editor` feeds `set_editor_content`; `nav` feeds
`go_next_question` (outside the `try`). -/
structure RunEnv where
  capture : Except Err QuestionSnapshot
  llm : Except Err String
  clickChoice : Except Err Unit
  fillBlanksRes : Except Err Unit
  editor : EditorEnv
  nav : NavEnv

inductive Action
  | capture
  | askLLM
  | clickOption (letter : String)
  | fillBlanks
  | setEditor
  | trySave
  | logUnknown
  | logError
  | advance
deriving DecidableEq

/-- The CHOICE branch: ask the LLM, extract the letter with
`normalize_letter_answer` over the options with a non-empty key (falling back
to the first valid letter, or `"A"`), and click it.  Returns the performed
actions and whether an exception escaped the branch. -/
def choiceBranch (q : QuestionSnapshot) (env : RunEnv) : List Action × Bool :=
  match env.llm with
  | .error _ => ([Action.askLLM], true)
  | .ok ans =>
    let valid := (q.options.filter (fun o => o.key ≠ "")).map (fun o => o.key)
    let letter :=
      match normalize_letter_answer ans valid with
      | some l => l
      | none => valid.headD "A"
    match env.clickChoice with
    | .error _ => ([Action.askLLM, Action.clickOption letter], true)
    | .ok _ => ([Action.askLLM, Action.clickOption letter], false)

/-- The FILL branch: ask the LLM, then `fill_blanks`. -/
def fillBranch (env : RunEnv) : List Action × Bool :=
  match env.llm with
  | .error _ => ([Action.askLLM], true)
  | .ok _ =>
    match env.fillBlanksRes with
    | .error _ => ([Action.askLLM, Action.fillBlanks], true)
    | .ok _ => ([Action.askLLM, Action.fillBlanks], false)

/-- The CODE branch: ask the LLM, call `set_editor_content` (whose own result
is only logged), then `try_click_save` (which swallows its failures). -/
def codeBranch (env : RunEnv) : List Action × Bool :=
  match env.llm with
  | .error _ => ([Action.askLLM], true)
  | .ok _ =>
    match set_editor_content env.editor with
    | .ok _ => ([Action.askLLM, Action.setEditor, Action.trySave], false)
    | .error _ => ([Action.askLLM, Action.setEditor], true)

/-- The body of the `try` block of `QuizSolver.run` in `main.py`: dispatch on
the tag; an unmatched tag is only logged (`logUnknown`) — no answer is
generated and nothing is injected. -/
def answerPhase (q : QuestionSnapshot) (env : RunEnv) : List Action × Bool :=
  if pyIn "SINGLE" q.qtype || pyIn "JUDGE" q.qtype then choiceBranch q env
  else if pyIn "FILL" q.qtype then fillBranch env
  else if codeTriggers.any (fun t => pyIn t q.qtype) then codeBranch env
  else ([Action.logUnknown], false)

/-- The dispatch of the `quiz_solver.py` variant's `run` (473–537): the same
CHOICE and FILL branches, but its final branch is an unconditional `else`
that treats every remaining tag as a code question — it has no UNKNOWN
branch. -/
def qsAnswerPhase (q : QuestionSnapshot) (env : RunEnv) : List Action × Bool :=
  if pyIn "SINGLE" q.qtype || pyIn "JUDGE" q.qtype then choiceBranch q env
  else if pyIn "FILL" q.qtype then fillBranch env
  else codeBranch env

/-- One iteration of the `while True` loop of `QuizSolver.run` in `main.py`:
capture (outside the `try`; a failure propagates), the dispatch guarded by
`except Exception` (an escape is logged, `logError`, and execution falls
through), then `go_next_question` (outside the `try`; a failure propagates).
Returns the performed actions and the `is_last` flag. -/
def runBody (env : RunEnv) : Except Err (List Action × Bool) :=
  match env.capture with
  | .error e => .error e
  | .ok q =>
    let phase := answerPhase q env
    let body := phase.1 ++ (if phase.2 then [Action.logError] else [])
    match go_next_question env.nav with
    | .error e => .error e
    | .ok (isLast, _) => .ok (Action.capture :: body ++ [Action.advance], isLast)

/-- The `while True` loop: iterate `runBody` until the advance step reports
the last question (`break`) or an uncaught exception ends the run.  Returns
`some (Except.ok k)` when iteration `k` is terminal, `some (Except.error e)`
when an iteration raises `e`, and `none` when the fuel runs out first. -/
def runLoop (envs : Nat → RunEnv) : Nat → Nat → Option (Except Err Nat)
  | 0, _ => none
  | fuel + 1, k =>
    match runBody (envs k) with
    | .error e => some (.error e)
    | .ok (_, true) => some (.ok k)
    | .ok (_, false) => runLoop envs fuel (k + 1)

/-- **C2.** For every loop iteration whose capture succeeded: an exception
raised in the classification/answer/injection phase is caught inside the
body and logged, and the advance step is still invoked — the body's outcome
is exactly the advance step's outcome; conversely the body raises only when
`go_next_question` itself raises, and it propagates that very exception. -/
theorem run_isolates_answer_errors (env : RunEnv) (q : QuestionSnapshot)
    (hc : env.capture = Except.ok q) :
    (∀ e, runBody env = Except.error e → go_next_question env.nav = Except.error e) ∧
    (∀ e, go_next_question env.nav = Except.error e → runBody env = Except.error e) ∧
    (∀ isLast acts, go_next_question env.nav = Except.ok (isLast, acts) →
      ∃ body, runBody env = Except.ok (Action.capture :: body ++ [Action.advance], isLast) ∧
        ((answerPhase q env).2 = true → Action.logError ∈ body)) := by
  refine ⟨?_, ?_, ?_⟩
  · intro e he
    rw [runBody, hc] at he
    rcases hn : go_next_question env.nav with e' | ⟨isLast, acts⟩
    · rw [hn] at he
      simpa using he
    · rw [hn] at he
      simp at he
  · intro e hn
    rw [runBody, hc]
    dsimp only
    rw [hn]
  · intro isLast acts hn
    refine ⟨(answerPhase q env).1 ++
      (if (answerPhase q env).2 then [Action.logError] else []), ?_, ?_⟩
    · rw [runBody, hc]
      dsimp only
      rw [hn]
    · intro hr
      rw [hr, if_pos rfl]
      simp

/-- Witness for C2: a choice question whose LLM call raises; the body logs
the error and still advances, ending with the advance step's flag. -/
theorem run_isolates_answer_errors_witness :
    ∃ body,
      runBody
        { capture := Except.ok ⟨"q1", "SINGLE_CHOICE", "题干",
            [⟨"A", "甲"⟩, ⟨"B", "乙"⟩]⟩,
          llm := Except.error Err.llm,
          clickChoice := Except.ok (),
          fillBlanksRes := Except.ok (),
          editor := ⟨Except.ok false, ⟨Except.error Err.timeout, Except.ok false, Except.ok ()⟩,
            ⟨Except.error Err.timeout, Except.ok false, Except.ok ()⟩,
            ⟨Except.error Err.timeout, Except.ok false, Except.ok ()⟩,
            Except.error Err.timeout, Except.ok (), Except.error Err.timeout,
            Except.error Err.timeout, Except.ok ()⟩,
          nav := ⟨Except.ok (), none, Except.ok ()⟩ } =
        Except.ok (Action.capture :: body ++ [Action.advance], false) ∧
      ((answerPhase ⟨"q1", "SINGLE_CHOICE", "题干", [⟨"A", "甲"⟩, ⟨"B", "乙"⟩]⟩
          { capture := Except.ok ⟨"q1", "SINGLE_CHOICE", "题干",
              [⟨"A", "甲"⟩, ⟨"B", "乙"⟩]⟩,
            llm := Except.error Err.llm,
            clickChoice := Except.ok (),
            fillBlanksRes := Except.ok (),
            editor := ⟨Except.ok false, ⟨Except.error Err.timeout, Except.ok false, Except.ok ()⟩,
              ⟨Except.error Err.timeout, Except.ok false, Except.ok ()⟩,
              ⟨Except.error Err.timeout, Except.ok false, Except.ok ()⟩,
              Except.error Err.timeout, Except.ok (), Except.error Err.timeout,
              Except.error Err.timeout, Except.ok ()⟩,
            nav := ⟨Except.ok (), none, Except.ok ()⟩ }).2 = true →
        Action.logError ∈ body) :=
  (run_isolates_answer_errors _ _ rfl).2.2 false [NavAction.clickNext] rfl

theorem runBody_flag (env : RunEnv) (q : QuestionSnapshot) (isLast : Bool)
    (acts : List NavAction)
    (hc : env.capture = Except.ok q)
    (hn : go_next_question env.nav = Except.ok (isLast, acts)) :
    runBody env = Except.ok (Action.capture ::
      ((answerPhase q env).1 ++
        (if (answerPhase q env).2 then [Action.logError] else [])) ++
      [Action.advance], isLast) := by
  rw [runBody, hc]
  dsimp only
  rw [hn]

/-- Sample fully-failing editor environment: no backend present. -/
def sampleEditorEnv : EditorEnv :=
  ⟨Except.ok false, ⟨Except.error Err.timeout, Except.ok false, Except.ok ()⟩,
    ⟨Except.error Err.timeout, Except.ok false, Except.ok ()⟩,
    ⟨Except.error Err.timeout, Except.ok false, Except.ok ()⟩,
    Except.error Err.timeout, Except.ok (), Except.error Err.timeout,
    Except.error Err.timeout, Except.ok ()⟩

/-- Sample advance environment: click succeeds, no dialog, staleness in time. -/
def sampleNavEnv : NavEnv := ⟨Except.ok (), none, Except.ok ()⟩

/-- The spec's end-to-end example of an unmatched tag. -/
def essayQ : QuestionSnapshot := ⟨"q9", "ESSAY_FREEFORM", "题面", []⟩

/-- A loop-iteration environment for `essayQ` in which every external call
behaves benignly. -/
def essayEnv : RunEnv :=
  { capture := Except.ok essayQ, llm := Except.ok "答案文本",
    clickChoice := Except.ok (), fillBlanksRes := Except.ok (),
    editor := sampleEditorEnv, nav := sampleNavEnv }

/-- **C6 counterexample.** For the unmatched tag `"ESSAY_FREEFORM"`, the
`quiz_solver.py` variant of the orchestrator — one of the claim's cited
sources — does not skip the question: its unconditional `else` branch asks
the LLM and attempts editor injection, contradicting "no answer generation
and no injection is performed". -/
theorem unknown_tag_cex :
    classify "ESSAY_FREEFORM" = QKind.unknown ∧
    qsAnswerPhase essayQ essayEnv =
      ([Action.askLLM, Action.setEditor, Action.trySave], false) ∧
    Action.setEditor ∈ (qsAnswerPhase essayQ essayEnv).1 ∧
    Action.askLLM ∈ (qsAnswerPhase essayQ essayEnv).1 := by
  refine ⟨by decide, by decide, by decide, by decide⟩

/-- **C6 (amended).** In `main.py`'s orchestrator (the behaviour the spec
adopts), for every question whose type tag contains none of `SINGLE`,
`JUDGE`, `FILL`, `PROGRAM`, `SQL`, `DESIGN`, `CORRECT`, `DB_SQL`: the tag
classifies UNKNOWN, the dispatch only logs it — no LLM call, no clicking, no
filling, no editor write — and the loop body still invokes the advance step
and returns its flag, so the run continues.  (The `quiz_solver.py` variant
instead routes such tags to the code branch, the divergence the spec's §9
records.) -/
theorem unknown_tag_skipped (env : RunEnv) (q : QuestionSnapshot) (b : Bool)
    (acts : List NavAction)
    (hc : env.capture = Except.ok q)
    (hn : go_next_question env.nav = Except.ok (b, acts))
    (h1 : pyIn "SINGLE" q.qtype = false) (h2 : pyIn "JUDGE" q.qtype = false)
    (h3 : pyIn "FILL" q.qtype = false) (h4 : pyIn "PROGRAM" q.qtype = false)
    (h5 : pyIn "SQL" q.qtype = false) (h6 : pyIn "DESIGN" q.qtype = false)
    (h7 : pyIn "CORRECT" q.qtype = false) (h8 : pyIn "DB_SQL" q.qtype = false) :
    classify q.qtype = QKind.unknown ∧
    answerPhase q env = ([Action.logUnknown], false) ∧
    runBody env =
      Except.ok ([Action.capture, Action.logUnknown, Action.advance], b) := by
  have hcode : (codeTriggers.any fun t => pyIn t q.qtype) = false := by
    simp [codeTriggers, h4, h5, h6, h7, h8]
  have hcl : classify q.qtype = QKind.unknown := by
    simp [classify, h1, h2, h3, hcode]
  have hap : answerPhase q env = ([Action.logUnknown], false) := by
    simp [answerPhase, h1, h2, h3, hcode]
  refine ⟨hcl, hap, ?_⟩
  have := runBody_flag env q b acts hc hn
  rw [hap] at this
  simpa using this

/-- Witness for C6 (amended) at the spec's own example tag. -/
theorem unknown_tag_skipped_witness :
    classify "ESSAY_FREEFORM" = QKind.unknown ∧
    answerPhase essayQ essayEnv = ([Action.logUnknown], false) ∧
    runBody essayEnv =
      Except.ok ([Action.capture, Action.logUnknown, Action.advance], false) := by
  have h := unknown_tag_skipped essayEnv essayQ false [NavAction.clickNext]
    rfl rfl (by decide) (by decide) (by decide) (by decide) (by decide)
    (by decide) (by decide) (by decide)
  exact h

theorem go_next_flag (a : Option String) :
    go_next_question ⟨Except.ok (), a, Except.ok ()⟩ =
      Except.ok
        ((match a with | some t => isLastMsg t | none => false),
          NavAction.clickNext ::
            (match a with | some _ => [NavAction.acceptAlert] | none => [])) := by
  rcases a with _ | t <;> rfl

/-- **C7.** For a loop iteration whose capture, next-click and staleness wait
all succeed: a dialog whose stripped text contains the sentinel `"最后一题"`
is accepted (dismissed) and makes `go_next_question` return `true`, and the
orchestrator loop terminates at this iteration; a dialog without the sentinel
is still accepted, `false` is returned, and the loop continues with the next
iteration; no dialog within the short wait also yields `false` and the loop
continues. -/
theorem advance_terminal_sentinel (env : RunEnv) (q : QuestionSnapshot)
    (fuel k : Nat) (envs : Nat → RunEnv) (alertRes : Option String)
    (hc : env.capture = Except.ok q)
    (hnav : env.nav = ⟨Except.ok (), alertRes, Except.ok ()⟩)
    (henv : envs k = env) :
    (∀ t, alertRes = some t → isLastMsg t = true →
      go_next_question env.nav =
        Except.ok (true, [NavAction.clickNext, NavAction.acceptAlert]) ∧
      runLoop envs (fuel + 1) k = some (Except.ok k)) ∧
    (∀ t, alertRes = some t → isLastMsg t = false →
      go_next_question env.nav =
        Except.ok (false, [NavAction.clickNext, NavAction.acceptAlert]) ∧
      runLoop envs (fuel + 1) k = runLoop envs fuel (k + 1)) ∧
    (alertRes = none →
      go_next_question env.nav = Except.ok (false, [NavAction.clickNext]) ∧
      runLoop envs (fuel + 1) k = runLoop envs fuel (k + 1)) := by
  refine ⟨?_, ?_, ?_⟩
  · intro t ht hlast
    subst ht
    have hgo : go_next_question env.nav =
        Except.ok (true, [NavAction.clickNext, NavAction.acceptAlert]) := by
      rw [hnav, go_next_flag]
      dsimp only
      rw [hlast]
    refine ⟨hgo, ?_⟩
    have hrb := runBody_flag env q true [NavAction.clickNext, NavAction.acceptAlert] hc hgo
    rw [runLoop, henv, hrb]
  · intro t ht hlast
    subst ht
    have hgo : go_next_question env.nav =
        Except.ok (false, [NavAction.clickNext, NavAction.acceptAlert]) := by
      rw [hnav, go_next_flag]
      dsimp only
      rw [hlast]
    refine ⟨hgo, ?_⟩
    have hrb := runBody_flag env q false [NavAction.clickNext, NavAction.acceptAlert] hc hgo
    rw [runLoop, henv, hrb]
  · intro ht
    subst ht
    have hgo : go_next_question env.nav =
        Except.ok (false, [NavAction.clickNext]) := by
      rw [hnav, go_next_flag]
    refine ⟨hgo, ?_⟩
    have hrb := runBody_flag env q false [NavAction.clickNext] hc hgo
    rw [runLoop, henv, hrb]

/-- The advance environment of the spec's terminal scenario: the dialog text
is `"已经是最后一题了。"`. -/
def lastNavEnv : NavEnv := ⟨Except.ok (), some "已经是最后一题了。", Except.ok ()⟩

/-- A loop-iteration environment that meets the terminal dialog. -/
def lastRunEnv : RunEnv :=
  { capture := Except.ok essayQ, llm := Except.ok "答案文本",
    clickChoice := Except.ok (), fillBlanksRes := Except.ok (),
    editor := sampleEditorEnv, nav := lastNavEnv }

/-- Witness for C7 at the spec's terminal scenario: the dialog is dismissed,
the flag is `true`, and the loop ends at this iteration. -/
theorem advance_terminal_sentinel_witness :
    go_next_question lastNavEnv =
      Except.ok (true, [NavAction.clickNext, NavAction.acceptAlert]) ∧
    runLoop (fun _ => lastRunEnv) 1 0 = some (Except.ok 0) := by
  have h := (advance_terminal_sentinel lastRunEnv essayQ 0 0 (fun _ => lastRunEnv)
    (some "已经是最后一题了。") rfl rfl rfl).1 "已经是最后一题了。" rfl (by decide)
  exact h

end Zjcai
